import Mathlib

/-!
Verification of the course-map layout-and-interaction engine
(`src/components/CourseMap.jsx`).

The JavaScript source is shallowly embedded: JS numbers that only ever hold
exact values in the claims are modelled as `ℚ` (coordinates, opacities) or
`Int` (pointer coordinates); JS `parseInt` is modelled as a partial function
returning `Option Int` where `none` plays the role of `NaN`; JS objects used
as dictionaries are modelled as association lists in insertion order, with
`Object.entries` iteration order (array-index keys ascending first, then the
other keys in insertion order) made explicit.
-/

namespace CourseMap

/-- A course record as consumed by the component: `course_number`,
`course_title`, `credits`, `prerequisites`, `link`. -/
structure Course where
  course_number : String
  course_title : String
  credits : ℚ
  prerequisites : List String
  link : String
  deriving Repr, DecidableEq

/-- Value of a block of decimal digits, most significant first. -/
def digitsVal (cs : List Char) : Nat :=
  cs.foldl (fun a c => a * 10 + (c.toNat - ('0').toNat)) 0

/-- Parse the longest prefix of decimal digits; `none` when there is none. -/
def parseNatPre (cs : List Char) : Option Nat :=
  let ds := cs.takeWhile Char.isDigit
  if ds.isEmpty then none else some (digitsVal ds)

/-- Model of JavaScript `parseInt(s)` in base 10: skip leading whitespace,
read an optional sign and then leading digits; `none` models `NaN`. -/
def parseIntJS (cs : List Char) : Option Int :=
  match cs.dropWhile Char.isWhitespace with
  | '-' :: rest => (parseNatPre rest).map (fun n => -(n : Int))
  | '+' :: rest => (parseNatPre rest).map (fun n => (n : Int))
  | ds => (parseNatPre ds).map (fun n => (n : Int))

/-- JavaScript `s.split(sep)` for a one-character separator, on character
lists: consecutive separators yield empty chunks, and the result is never
empty (`"".split(" ")` is `[""]`). -/
def splitOnChar (sep : Char) : List Char → List (List Char)
  | [] => [[]]
  | c :: rest =>
      match splitOnChar sep rest with
      | [] => [[c]]
      | chunk :: chunks =>
          if c = sep then [] :: chunk :: chunks
          else (c :: chunk) :: chunks

/-- A level bucket key: `some l` for an integer level, `none` for the `NaN`
key produced when the numeric part of the course number does not parse. -/
abbrev LevelKey := Option Int

/-- Model of `Math.floor(parseInt(course_number.split(" ")[1]) / 100) * 100`:
the level key of a course number.  `Int.fdiv` is floor division, matching
`Math.floor` on the exact quotient; an unparseable numeric part (including a
missing second token, where `split(" ")[1]` is `undefined`) yields the `NaN`
key `none`. -/
def courseLevelKey (cn : String) : LevelKey :=
  match (splitOnChar ' ' cn.data).get? 1 with
  | none => none
  | some numStr => (parseIntJS numStr).map (fun n => (Int.fdiv n 100) * 100)

/-- The `levels` dictionary: level key to the courses pushed under it, in
insertion order of the keys. -/
abbrev Levels := List (LevelKey × List Course)

/-- Model of `if (!levels[level]) levels[level] = []; levels[level].push(course)`:
append `c` to the bucket of key `k`, creating the bucket at the end when the
key is new. -/
def insertCourse (ls : Levels) (k : LevelKey) (c : Course) : Levels :=
  match ls with
  | [] => [(k, [c])]
  | (k', cs) :: rest =>
      if k' = k then (k', cs ++ [c]) :: rest
      else (k', cs) :: insertCourse rest k c

/-- The `coursesWithDetails.forEach` loop of `programStructure` that fills
the `levels` dictionary. -/
def classifyLevels (courses : List Course) : Levels :=
  courses.foldl (fun ls c => insertCourse ls (courseLevelKey c.course_number) c) []

/-- The value computed by the `programStructure` memo for a found program:
the detailed course list together with its level dictionary. -/
structure ProgramStructure where
  courses : List Course
  levels : Levels
  deriving Repr, DecidableEq

/-- A program record from `programs.json`. -/
structure ProgramRec where
  program : String
  courses : List Course
  deriving Repr, DecidableEq

/-- Model of the spread `{...course, ...getCourseDetails(course.course_number)}`: the department
lookup `details` may fail (`null`), in which case the program-level record is
kept as is; otherwise its fields are overridden by the detail record. -/
def withDetails (details : String → Option Course) (c : Course) : Course :=
  match details c.course_number with
  | none => c
  | some d => d

/-- The `programStructure` memo: `null` when no program is selected (the
empty string is falsy) or when the program is not found, otherwise the
detailed course list and its level dictionary. -/
def programStructure (programsData : List ProgramRec) (details : String → Option Course)
    (selectedProgram : String) : Option ProgramStructure :=
  if selectedProgram = "" then none
  else
    match programsData.find? (fun p => p.program = selectedProgram) with
    | none => none
    | some program =>
        let coursesWithDetails := program.courses.map (withDetails details)
        some ⟨coursesWithDetails, classifyLevels coursesWithDetails⟩

/-! ## Object.entries iteration order

JavaScript iterates an object's array-index keys (canonical non-negative
integers) in ascending numeric order first, then the remaining keys
(negative levels, the `NaN` key) in insertion order. -/

/-- Numeric value of a level key, used only to order array-index keys. -/
def keyVal : LevelKey → Int
  | some n => n
  | none => 0

/-- Whether a level entry's key is an array-index key (non-negative integer). -/
def isArrayIndexKey (e : LevelKey × List Course) : Bool :=
  match e.1 with
  | some n => decide (0 ≤ n)
  | none => false

/-- Insert one entry into a key-sorted list of entries. -/
def insertByKey (e : LevelKey × List Course) : Levels → Levels
  | [] => [e]
  | f :: rest =>
      if keyVal e.1 ≤ keyVal f.1 then e :: f :: rest else f :: insertByKey e rest

/-- Insertion sort of level entries by numeric key. -/
def sortByKey : Levels → Levels
  | [] => []
  | e :: rest => insertByKey e (sortByKey rest)

/-- Model of `Object.entries(programStructure.levels)` in JavaScript iteration order:
array-index keys sorted ascending, then the remaining keys in insertion
order. -/
def entriesOrder (ls : Levels) : Levels :=
  sortByKey (ls.filter isArrayIndexKey) ++ ls.filter (fun e => !isArrayIndexKey e)

/-! ## Layout engine -/

/-- A node position. -/
structure Pos where
  x : ℚ
  y : ℚ
  deriving Repr, DecidableEq

/-- The `positions` dictionary, keyed by course number in insertion order. -/
abbrev Positions := List (String × Pos)

/-- Model of `positions[k] = v`: overwrite the existing binding or append a new one. -/
def setPos (ps : Positions) (k : String) (v : Pos) : Positions :=
  match ps with
  | [] => [(k, v)]
  | (k', v') :: rest =>
      if k' = k then (k, v) :: rest else (k', v') :: setPos rest k v

/-- Mutable state threaded through the layout loops: the positions
dictionary, the running `maxX`/`maxY`, and a counter into the stream of
`Math.random()` draws. -/
structure LayoutState where
  positions : Positions
  maxX : ℚ
  maxY : ℚ
  ctr : Nat
  deriving Repr

/-- The vertical anchor `baseY = levelIndex * levelHeight + 100` with `levelHeight = 150`. -/
def baseYOf (levelIndex : Nat) : ℚ :=
  (levelIndex : ℚ) * 150 + 100

/-- The horizontal coordinate `x = (index - (courses.length - 1) / 2) * nodeWidth + mapWidth / 2`
with `nodeWidth = 120`. -/
def xCoord (mapWidth : ℚ) (index n : Nat) : ℚ :=
  ((index : ℚ) - ((n : ℚ) - 1) / 2) * 120 + mapWidth / 2

/-- The inner `courses.forEach((course, index) => ...)` loop: each course
draws `randomOffset = (Math.random() - 0.5) * verticalNoise` (with
`verticalNoise = 30`) from the stream `rand` at the current counter, and is
stored at `(x, baseY + randomOffset)`; `maxX` absorbs `x + 60`. -/
def placeCourses (mapWidth : ℚ) (rand : Nat → ℚ) (baseY : ℚ) (n : Nat) :
    Nat → List Course → LayoutState → LayoutState
  | _, [], st => st
  | index, c :: rest, st =>
      let randomOffset := (rand st.ctr - 1 / 2) * 30
      let y := baseY + randomOffset
      let x := xCoord mapWidth index n
      placeCourses mapWidth rand baseY n (index + 1) rest
        { positions := setPos st.positions c.course_number ⟨x, y⟩
          maxX := max st.maxX (x + 60)
          maxY := st.maxY
          ctr := st.ctr + 1 }

/-- One iteration of the outer `Object.entries(...).forEach` loop: fix
`baseY` from the level index, absorb `baseY + 100` into `maxY`, then place
the level's courses. -/
def placeLevel (mapWidth : ℚ) (rand : Nat → ℚ) (levelIndex : Nat)
    (courses : List Course) (st : LayoutState) : LayoutState :=
  placeCourses mapWidth rand (baseYOf levelIndex) courses.length 0 courses
    { st with maxY := max st.maxY (baseYOf levelIndex + 100) }

/-- The outer level loop, threading the level index. -/
def placeLevels (mapWidth : ℚ) (rand : Nat → ℚ) : Nat → Levels → LayoutState → LayoutState
  | _, [], st => st
  | levelIndex, (_k, cs) :: rest, st =>
      placeLevels mapWidth rand (levelIndex + 1) rest
        (placeLevel mapWidth rand levelIndex cs st)

/-- The body of the layout memo for a non-null program structure, with
`mapWidth = containerWidth * 0.7`. -/
def computeLayout (ps : ProgramStructure) (containerWidth : ℚ) (rand : Nat → ℚ) : LayoutState :=
  placeLevels (containerWidth * (7 / 10)) rand 0 (entriesOrder ps.levels) ⟨[], 0, 0, 0⟩

/-- Canvas extent. -/
structure Dims where
  width : ℚ
  height : ℚ
  deriving Repr, DecidableEq

/-- The `nodePositions` half of the layout memo: empty when the program structure is null. -/
def nodePositions (ops : Option ProgramStructure) (containerWidth : ℚ)
    (rand : Nat → ℚ) : Positions :=
  match ops with
  | none => []
  | some ps => (computeLayout ps containerWidth rand).positions

/-- The `svgDimensions` half of the layout memo: the fixed `{width: 1000, height: 800}` fallback when the
program structure is null, otherwise
`{width: max(mapWidth, maxX + 100), height: maxY + 100}`. -/
def svgDimensions (ops : Option ProgramStructure) (containerWidth : ℚ)
    (rand : Nat → ℚ) : Dims :=
  match ops with
  | none => ⟨1000, 800⟩
  | some ps =>
      let st := computeLayout ps containerWidth rand
      ⟨max (containerWidth * (7 / 10)) (st.maxX + 100), st.maxY + 100⟩

/-! ## Edge deriver -/

/-- An emitted prerequisite line.  Besides the `id`, `source` and `target`
fields of the JavaScript object, the record carries the two endpoint course
numbers the line was built from, so properties can be stated about them. -/
structure Line where
  id : String
  prereq : String
  course_num : String
  source : Pos
  target : Pos
  deriving Repr, DecidableEq

/-- The body of `renderPrerequisiteLines` for one course: skip the course
when its own position is missing, then for each prerequisite push a line
only when the prerequisite's position exists. -/
def prereqLinesOf (nodePos : Positions) (course : Course) : List Line :=
  match List.lookup course.course_number nodePos with
  | none => []
  | some sourcePos =>
      course.prerequisites.filterMap (fun prereq =>
        match List.lookup prereq nodePos with
        | none => none
        | some targetPos =>
            some { id := prereq ++ "-" ++ course.course_number
                   prereq := prereq
                   course_num := course.course_number
                   source := targetPos
                   target := sourcePos })

/-- The `renderPrerequisiteLines` memo: all lines pushed over the course list, in
push order. -/
def renderPrerequisiteLines (courses : List Course) (nodePos : Positions) : List Line :=
  courses.flatMap (prereqLinesOf nodePos)

/-! ## Selection highlight -/

/-- Whether `needle` occurs as a contiguous sublist. -/
def isInfixList (needle : List Char) : List Char → Bool
  | [] => needle.isEmpty
  | c :: rest => needle.isPrefixOf (c :: rest) || isInfixList needle rest

/-- JavaScript `s.includes(sub)`: substring containment. -/
def strIncludes (s sub : String) : Bool :=
  isInfixList sub.data s.data

/-- Opacity of an arrowed prerequisite line:
`selectedNode ? (line.id.includes(selectedNode) ? 2 : 0.1) : 0.01`. -/
def arrowLineOpacity (selectedNode : Option String) (lineId : String) : ℚ :=
  match selectedNode with
  | some sel => if strIncludes lineId sel then 2 else 1 / 10
  | none => 1 / 100

/-- Opacity of a plain edge:
`selectedNode ? (selectedNode === course.course_number || selectedNode === prereq ? 1 : 0.2) : 0.5`. -/
def plainLineOpacity (selectedNode : Option String) (prereq course_num : String) : ℚ :=
  match selectedNode with
  | some sel => if sel = course_num || sel = prereq then 1 else 1 / 5
  | none => 1 / 2

/-! ## Component state and event handlers -/

/-- The component's `useState` atoms that the claims are about. -/
structure AppState where
  selectedProgram : String
  selectedNode : Option String
  containerWidth : ℚ
  offset : Int × Int
  isDragging : Bool
  dragStart : Int × Int
  deriving Repr, DecidableEq

/-- The initial state of the component's `useState` hooks. -/
def initialAppState : AppState :=
  { selectedProgram := ""
    selectedNode := none
    containerWidth := 0
    offset := (0, 0)
    isDragging := false
    dragStart := (0, 0) }

/-- The `handleMouseDown` handler: on the primary button (`e.button === 0`), start
dragging and capture `dragStart = client - offset`; other buttons are
ignored. -/
def handleMouseDown (button : Nat) (clientX clientY : Int) (s : AppState) : AppState :=
  if button = 0 then
    { s with isDragging := true
             dragStart := (clientX - s.offset.1, clientY - s.offset.2) }
  else s

/-- The `handleMouseMove` handler: while dragging, `offset = client - dragStart`;
otherwise a no-op. -/
def handleMouseMove (clientX clientY : Int) (s : AppState) : AppState :=
  if s.isDragging then
    { s with offset := (clientX - s.dragStart.1, clientY - s.dragStart.2) }
  else s

/-- The `handleMouseUp` handler (also bound to `mouseleave`): stop dragging. -/
def handleMouseUp (s : AppState) : AppState :=
  { s with isDragging := false }

/-- The `<select>` `onChange` handler: `setSelectedProgram(e.target.value)`
and nothing else. -/
def handleProgramChange (value : String) (s : AppState) : AppState :=
  { s with selectedProgram := value }

/-- The guard of the course info panel:
`selectedNode && programStructure?.courses.find(c => c.course_number === selectedNode)`.
`none` means the panel shows the hover-prompt fallback; `some c` is the course
record every field read in the panel comes from. -/
def panelCourse (selectedNode : Option String) (ops : Option ProgramStructure) : Option Course :=
  match selectedNode, ops with
  | some n, some ps => ps.courses.find? (fun c => c.course_number = n)
  | _, _ => none

/-! ## Concrete sample data

A small program in the shape of the spec's worked scenario: `A 100` with no
prerequisites, `A 200` requiring `A 100`, `A 300` requiring `A 200` and the
dangling `A 999`. -/

/-- Sample course `A 100`. -/
def sampleCourse1 : Course := ⟨"A 100", "Intro", 3, [], "u1"⟩

/-- Sample course `A 200`, requiring `A 100`. -/
def sampleCourse2 : Course := ⟨"A 200", "Mid", 3, ["A 100"], "u2"⟩

/-- Sample course `A 300`, requiring `A 200` and the dangling `A 999`. -/
def sampleCourse3 : Course := ⟨"A 300", "Adv", 3, ["A 200", "A 999"], "u3"⟩

/-- The sample course list. -/
def sampleCourses : List Course := [sampleCourse1, sampleCourse2, sampleCourse3]

/-- The sample program structure, as `programStructure` would build it. -/
def sampleStructure : ProgramStructure := ⟨sampleCourses, classifyLevels sampleCourses⟩

/-- A course whose numeric part does not parse. -/
def badCourse : Course := ⟨"A xyz", "Unparseable", 3, [], "u4"⟩

/-- A deterministic stand-in for the `Math.random()` stream. -/
def halfRand : Nat → ℚ := fun _ => 1 / 2

/-- A small hand-written positions dictionary for edge-derivation witnesses. -/
def samplePositions : Positions := [("A 100", ⟨1, 2⟩), ("A 200", ⟨3, 4⟩)]

end CourseMap

namespace CourseMap

/-! # Theorems -/

/-! ## Viewport controller and component-state frame lemmas -/

theorem handleMouseMove_not_dragging (mx my : Int) (s : AppState)
    (h : s.isDragging = false) : handleMouseMove mx my s = s := by
  simp [handleMouseMove, h]

theorem foldl_move_not_dragging (moves : List (Int × Int)) (s : AppState)
    (h : s.isDragging = false) :
    moves.foldl (fun t m => handleMouseMove m.1 m.2 t) s = s := by
  induction moves with
  | nil => rfl
  | cons m ms ih =>
      rw [List.foldl_cons, handleMouseMove_not_dragging m.1 m.2 s h]
      exact ih

/-- C6: starting in the idle state with offset `(0,0)`, a primary-button
press at `(100,100)` followed by a move to `(150,130)` yields offset
`(50,30)`; in general a primary press captures
`dragStart = pointer - offset` and a subsequent move sets
`offset = pointer - dragStart`; and after a release, any sequence of moves
leaves the offset unchanged until the next press. -/
theorem c6_viewport_drag :
    (handleMouseMove 150 130 (handleMouseDown 0 100 100 initialAppState)).offset = (50, 30)
    ∧ (∀ (s : AppState) (px py : Int),
        (handleMouseDown 0 px py s).dragStart = (px - s.offset.1, py - s.offset.2))
    ∧ (∀ (s : AppState) (px py mx my : Int),
        (handleMouseMove mx my (handleMouseDown 0 px py s)).offset
          = (mx - (px - s.offset.1), my - (py - s.offset.2)))
    ∧ (∀ (s : AppState) (moves : List (Int × Int)),
        (moves.foldl (fun t m => handleMouseMove m.1 m.2 t) (handleMouseUp s)).offset
          = s.offset) := by
  refine ⟨by decide, ?_, ?_, ?_⟩
  · intro s px py
    simp [handleMouseDown]
  · intro s px py mx my
    simp [handleMouseDown, handleMouseMove]
  · intro s moves
    rw [foldl_move_not_dragging moves (handleMouseUp s) rfl]
    rfl

/-- C9: the program-change handler rewrites only the selected program: the
pan offset (and every other state atom) is untouched, and the offset is
`(0,0)` only by virtue of the initial state of the controller. -/
theorem c9_program_change_offset_frame (v : String) (s : AppState) :
    (handleProgramChange v s).offset = s.offset
    ∧ (handleProgramChange v s).selectedProgram = v
    ∧ (handleProgramChange v s).selectedNode = s.selectedNode
    ∧ (handleProgramChange v s).containerWidth = s.containerWidth
    ∧ (handleProgramChange v s).isDragging = s.isDragging
    ∧ (handleProgramChange v s).dragStart = s.dragStart
    ∧ initialAppState.offset = (0, 0) :=
  ⟨rfl, rfl, rfl, rfl, rfl, rfl, rfl⟩

/-- C10: a program change leaves the selected course untouched, and when the
selected course number is absent from the active course list the panel guard
lookup returns `none`, so the panel degrades to the no-selection fallback. -/
theorem c10_selection_survives_program_change (v : String) (s : AppState)
    (n : String) (ps : ProgramStructure)
    (h : ps.courses.find? (fun c => c.course_number = n) = none) :
    (handleProgramChange v s).selectedNode = s.selectedNode
    ∧ panelCourse (some n) (some ps) = none := by
  exact ⟨rfl, by simp [panelCourse, h]⟩

/-- Witness for C10 at a concrete input: selecting `"A 100"` against an
empty program. -/
theorem c10_witness :
    (ProgramStructure.mk [] []).courses.find? (fun c => c.course_number = "A 100") = none
    ∧ ((handleProgramChange "Other" initialAppState).selectedNode
          = initialAppState.selectedNode
       ∧ panelCourse (some "A 100") (some (ProgramStructure.mk [] [])) = none) :=
  ⟨rfl, c10_selection_survives_program_change "Other" initialAppState "A 100"
    (ProgramStructure.mk [] []) rfl⟩

/-! ## Edge deriver -/

/-- Shape of every emitted line: it comes from a course present in the list
and one of its prerequisites, and both endpoint positions were found. -/
theorem mem_renderPrerequisiteLines (courses : List Course) (nodePos : Positions)
    (line : Line) (h : line ∈ renderPrerequisiteLines courses nodePos) :
    ∃ c ∈ courses, ∃ pr ∈ c.prerequisites, ∃ sp tp : Pos,
      List.lookup c.course_number nodePos = some sp
      ∧ List.lookup pr nodePos = some tp
      ∧ line = ⟨pr ++ "-" ++ c.course_number, pr, c.course_number, tp, sp⟩ := by
  rw [renderPrerequisiteLines, List.mem_flatMap] at h
  obtain ⟨c, hc, hl⟩ := h
  rw [prereqLinesOf] at hl
  rcases hsp : List.lookup c.course_number nodePos with _ | sp
  · rw [hsp] at hl
    simp at hl
  · rw [hsp] at hl
    rw [List.mem_filterMap] at hl
    obtain ⟨pr, hpr, heq⟩ := hl
    rcases htp : List.lookup pr nodePos with _ | tp
    · rw [htp] at heq
      simp at heq
    · rw [htp] at heq
      refine ⟨c, hc, pr, hpr, sp, tp, hsp, htp, ?_⟩
      cases heq
      rfl

/-- C1: both endpoints of every line emitted by the edge deriver are keys of
the position mapping; a prerequisite with no position produces no line. -/
theorem c1_edge_endpoints_positioned (courses : List Course) (nodePos : Positions)
    (line : Line) (h : line ∈ renderPrerequisiteLines courses nodePos) :
    (List.lookup line.prereq nodePos).isSome = true
    ∧ (List.lookup line.course_num nodePos).isSome = true := by
  obtain ⟨c, -, pr, -, sp, tp, hsp, htp, rfl⟩ :=
    mem_renderPrerequisiteLines courses nodePos line h
  simp [hsp, htp]

/-- Witness for C1: the single line derived from the sample course `A 200`
over the hand-written positions dictionary. -/
theorem c1_witness :
    Line.mk "A 100-A 200" "A 100" "A 200" ⟨1, 2⟩ ⟨3, 4⟩
        ∈ renderPrerequisiteLines [sampleCourse2] samplePositions
    ∧ ((List.lookup (Line.mk "A 100-A 200" "A 100" "A 200" ⟨1, 2⟩ ⟨3, 4⟩).prereq
          samplePositions).isSome = true
       ∧ (List.lookup (Line.mk "A 100-A 200" "A 100" "A 200" ⟨1, 2⟩ ⟨3, 4⟩).course_num
          samplePositions).isSome = true) := by
  have hmem : Line.mk "A 100-A 200" "A 100" "A 200" ⟨1, 2⟩ ⟨3, 4⟩
      ∈ renderPrerequisiteLines [sampleCourse2] samplePositions := by
    simp [renderPrerequisiteLines, prereqLinesOf, sampleCourse2, samplePositions,
      List.lookup]
  exact ⟨hmem, c1_edge_endpoints_positioned [sampleCourse2] samplePositions _ hmem⟩

/-- C5: every emitted line's id is the string `"<prereq>-<courseNumber>"`;
with a course selected, an arrowed line is emphasised (opacity `2` rather
than `0.1`) exactly when the selected number occurs in that id as a
substring, while a plain edge is emphasised (opacity `1` rather than `0.2`)
exactly when the selected number equals the dependent's number or the
prerequisite's number. -/
theorem c5_highlight_match_semantics (sel : String) (courses : List Course)
    (nodePos : Positions) (line : Line)
    (h : line ∈ renderPrerequisiteLines courses nodePos) :
    line.id = line.prereq ++ "-" ++ line.course_num
    ∧ (arrowLineOpacity (some sel) line.id = 2 ↔ strIncludes line.id sel = true)
    ∧ (plainLineOpacity (some sel) line.prereq line.course_num = 1
        ↔ (sel = line.course_num ∨ sel = line.prereq)) := by
  obtain ⟨c, -, pr, -, sp, tp, -, -, rfl⟩ :=
    mem_renderPrerequisiteLines courses nodePos line h
  refine ⟨rfl, ?_, ?_⟩
  · rw [arrowLineOpacity]
    rcases hinc : strIncludes (pr ++ "-" ++ c.course_number) sel with _ | _
    · rw [if_neg (by simp [hinc])]
      norm_num
    · rw [if_pos (by simp [hinc])]
      simp
  · rw [plainLineOpacity]
    by_cases hor : sel = c.course_number ∨ sel = pr
    · rw [if_pos (by simpa using hor)]
      simpa using hor
    · rw [if_neg (by simpa using hor)]
      norm_num
      simpa using hor

/-- Witness for C5: the sample line, with `"A 200"` selected. -/
theorem c5_witness :
    Line.mk "A 100-A 200" "A 100" "A 200" ⟨1, 2⟩ ⟨3, 4⟩
        ∈ renderPrerequisiteLines [sampleCourse2] samplePositions
    ∧ ((Line.mk "A 100-A 200" "A 100" "A 200" ⟨1, 2⟩ ⟨3, 4⟩).id
          = (Line.mk "A 100-A 200" "A 100" "A 200" ⟨1, 2⟩ ⟨3, 4⟩).prereq ++ "-"
            ++ (Line.mk "A 100-A 200" "A 100" "A 200" ⟨1, 2⟩ ⟨3, 4⟩).course_num
       ∧ (arrowLineOpacity (some "A 200") (Line.mk "A 100-A 200" "A 100" "A 200" ⟨1, 2⟩ ⟨3, 4⟩).id = 2
            ↔ strIncludes (Line.mk "A 100-A 200" "A 100" "A 200" ⟨1, 2⟩ ⟨3, 4⟩).id "A 200" = true)
       ∧ (plainLineOpacity (some "A 200") (Line.mk "A 100-A 200" "A 100" "A 200" ⟨1, 2⟩ ⟨3, 4⟩).prereq
            (Line.mk "A 100-A 200" "A 100" "A 200" ⟨1, 2⟩ ⟨3, 4⟩).course_num = 1
            ↔ ("A 200" = (Line.mk "A 100-A 200" "A 100" "A 200" ⟨1, 2⟩ ⟨3, 4⟩).course_num
               ∨ "A 200" = (Line.mk "A 100-A 200" "A 100" "A 200" ⟨1, 2⟩ ⟨3, 4⟩).prereq))) := by
  have hmem : Line.mk "A 100-A 200" "A 100" "A 200" ⟨1, 2⟩ ⟨3, 4⟩
      ∈ renderPrerequisiteLines [sampleCourse2] samplePositions := by
    simp [renderPrerequisiteLines, prereqLinesOf, sampleCourse2, samplePositions,
      List.lookup]
  exact ⟨hmem, c5_highlight_match_semantics "A 200" [sampleCourse2] samplePositions _ hmem⟩

/-! ## Canvas extent -/

/-- C7 counterexample: a selected program that exists but has an empty
course list does NOT get the `1000 × 800` fallback extent — with container
width `1000` the computed extent is `700 × 100`.  The fallback applies only
to a null program structure (no program selected, or program not found). -/
theorem c7_counterexample :
    svgDimensions (programStructure [⟨"EMPTY", []⟩] (fun _ => none) "EMPTY") 1000 halfRand
      ≠ ⟨1000, 800⟩ := by
  have h : programStructure [⟨"EMPTY", []⟩] (fun _ => none) "EMPTY"
      = some ⟨[], []⟩ := by
    simp [programStructure, classifyLevels]
  rw [h]
  simp only [svgDimensions, computeLayout, entriesOrder, sortByKey, placeLevels,
    List.filter_nil, List.append_nil, ne_eq, Dims.mk.injEq, not_and]
  intro hw
  norm_num

/-- C7 (amended): the fixed `1000 × 800` fallback extent belongs to the null
program structure (no program selected, or selected program not found); a
found program with an empty course list instead yields extent
`max(0.7 * containerWidth, 100) × 100`. -/
theorem c7_amended_empty_course_list (programsData : List ProgramRec)
    (details : String → Option Course) (sel : String) (p : ProgramRec)
    (cw : ℚ) (rand : Nat → ℚ)
    (hsel : ¬sel = "")
    (hfind : programsData.find? (fun q => q.program = sel) = some p)
    (hempty : p.courses = []) :
    svgDimensions none cw rand = ⟨1000, 800⟩
    ∧ svgDimensions (programStructure programsData details sel) cw rand
        = ⟨max (cw * (7 / 10)) 100, 100⟩ := by
  refine ⟨rfl, ?_⟩
  rw [programStructure, if_neg hsel, hfind]
  simp only [hempty, List.map_nil]
  simp only [svgDimensions, computeLayout, classifyLevels, entriesOrder, sortByKey,
    placeLevels, List.foldl_nil, List.filter_nil, List.append_nil]
  norm_num

/-- Witness for the amended C7 at a concrete input. -/
theorem c7_witness :
    ¬("EMPTY" : String) = ""
    ∧ [ProgramRec.mk "EMPTY" []].find? (fun q => q.program = "EMPTY")
        = some (ProgramRec.mk "EMPTY" [])
    ∧ (ProgramRec.mk "EMPTY" []).courses = []
    ∧ (svgDimensions none 1000 halfRand = ⟨1000, 800⟩
       ∧ svgDimensions (programStructure [ProgramRec.mk "EMPTY" []] (fun _ => none) "EMPTY")
           1000 halfRand = ⟨max ((1000 : ℚ) * (7 / 10)) 100, 100⟩) :=
  ⟨by simp, by simp, rfl,
    c7_amended_empty_course_list [ProgramRec.mk "EMPTY" []] (fun _ => none) "EMPTY"
      (ProgramRec.mk "EMPTY" []) 1000 halfRand (by simp) (by simp) rfl⟩

/-! ## Level classification -/

theorem lookup_cons_pair {α β : Type} [BEq α] [LawfulBEq α] [DecidableEq α]
    (k k' : α) (b : β) (l : List (α × β)) :
    List.lookup k' ((k, b) :: l) = if k' = k then some b else List.lookup k' l := by
  by_cases h : k' = k
  · simp [List.lookup, h]
  · simp [List.lookup, beq_eq_false_iff_ne.mpr h, h]

theorem lookup_insertCourse (ls : Levels) (k k' : LevelKey) (c : Course) :
    List.lookup k' (insertCourse ls k c)
      = if k' = k then some ((List.lookup k ls).getD [] ++ [c])
        else List.lookup k' ls := by
  induction ls with
  | nil =>
      rw [insertCourse, lookup_cons_pair, List.lookup_nil]
      by_cases h : k' = k
      · rw [if_pos h, if_pos h]
        rfl
      · rw [if_neg h, if_neg h]
  | cons e rest ih =>
      obtain ⟨k0, cs0⟩ := e
      by_cases h0 : k0 = k
      · subst h0
        rw [insertCourse, if_pos rfl]
        by_cases h : k' = k0
        · rw [lookup_cons_pair, if_pos h, if_pos h, lookup_cons_pair, if_pos rfl]
          rfl
        · rw [lookup_cons_pair, if_neg h, if_neg h, lookup_cons_pair, if_neg h]
      · rw [insertCourse, if_neg h0]
        by_cases h : k' = k0
        · have hne : ¬k' = k := fun hh => h0 (h.symm.trans hh)
          rw [lookup_cons_pair, if_pos h, if_neg hne, lookup_cons_pair, if_pos h]
        · rw [lookup_cons_pair, if_neg h, ih]
          have hk0 : ¬k = k0 := fun hh => h0 hh.symm
          by_cases hk : k' = k
          · rw [if_pos hk, if_pos hk, lookup_cons_pair, if_neg hk0]
          · rw [if_neg hk, if_neg hk, lookup_cons_pair, if_neg h]

theorem mapFst_insertCourse (ls : Levels) (k : LevelKey) (c : Course) :
    (insertCourse ls k c).map Prod.fst
      = if k ∈ ls.map Prod.fst then ls.map Prod.fst else ls.map Prod.fst ++ [k] := by
  induction ls with
  | nil => simp [insertCourse]
  | cons e rest ih =>
      obtain ⟨k0, cs0⟩ := e
      by_cases h0 : k0 = k
      · subst h0
        simp [insertCourse]
      · by_cases hm : k ∈ rest.map Prod.fst
        · simp [insertCourse, h0, ih, Ne.symm h0, hm]
        · simp [insertCourse, h0, ih, Ne.symm h0, hm]

theorem nodup_mapFst_insertCourse (ls : Levels) (k : LevelKey) (c : Course)
    (h : (ls.map Prod.fst).Nodup) : ((insertCourse ls k c).map Prod.fst).Nodup := by
  rw [mapFst_insertCourse]
  by_cases hm : k ∈ ls.map Prod.fst
  · simpa [hm] using h
  · simp [hm, List.nodup_append, h]

theorem lookup_classify_getD (cs : List Course) (ls : Levels) (k : LevelKey) :
    (List.lookup k
        (cs.foldl (fun a c => insertCourse a (courseLevelKey c.course_number) c) ls)).getD []
      = (List.lookup k ls).getD []
        ++ cs.filter (fun c => decide (courseLevelKey c.course_number = k)) := by
  induction cs generalizing ls with
  | nil => simp
  | cons c rest ih =>
      rw [List.foldl_cons, ih]
      by_cases h : courseLevelKey c.course_number = k
      · simp [lookup_insertCourse, h, List.filter_cons]
      · simp [lookup_insertCourse, h, Ne.symm h, List.filter_cons]

theorem mem_mapFst_classify_foldl (cs : List Course) (ls : Levels) (x : LevelKey) :
    x ∈ (cs.foldl (fun a c => insertCourse a (courseLevelKey c.course_number) c) ls).map Prod.fst
      ↔ x ∈ ls.map Prod.fst ∨ x ∈ cs.map (fun c => courseLevelKey c.course_number) := by
  induction cs generalizing ls with
  | nil => simp
  | cons c rest ih =>
      rw [List.foldl_cons, ih, mapFst_insertCourse]
      by_cases hm : courseLevelKey c.course_number ∈ ls.map Prod.fst
      · rw [if_pos hm]
        constructor
        · rintro (hx | hx)
          · exact Or.inl hx
          · exact Or.inr (by simpa using Or.inr (by simpa using hx))
        · rintro (hx | hx)
          · exact Or.inl hx
          · rw [List.map_cons, List.mem_cons] at hx
            rcases hx with hx | hx
            · exact Or.inl (hx ▸ hm)
            · exact Or.inr hx
      · rw [if_neg hm]
        simp [List.mem_append, or_assoc]

theorem nodup_mapFst_classify_foldl (cs : List Course) (ls : Levels)
    (h : (ls.map Prod.fst).Nodup) :
    ((cs.foldl (fun a c => insertCourse a (courseLevelKey c.course_number) c) ls).map
        Prod.fst).Nodup := by
  induction cs generalizing ls with
  | nil => simpa
  | cons c rest ih => exact ih _ (nodup_mapFst_insertCourse _ _ _ h)

theorem lookup_isSome_iff_mem_mapFst {α β : Type} [BEq α] [LawfulBEq α] [DecidableEq α]
    (l : List (α × β)) (k : α) :
    (List.lookup k l).isSome = true ↔ k ∈ l.map Prod.fst := by
  induction l with
  | nil => simp
  | cons e rest ih =>
      obtain ⟨k0, b0⟩ := e
      by_cases h : k = k0
      · simp [lookup_cons_pair, h]
      · simp [lookup_cons_pair, h, ih]

theorem mem_of_lookup_eq_some {α β : Type} [BEq α] [LawfulBEq α] [DecidableEq α]
    (l : List (α × β)) (k : α) (b : β)
    (h : List.lookup k l = some b) : (k, b) ∈ l := by
  induction l with
  | nil => simp at h
  | cons e rest ih =>
      obtain ⟨k0, b0⟩ := e
      by_cases hk : k = k0
      · subst hk
        rw [lookup_cons_pair, if_pos rfl] at h
        cases h
        exact List.mem_cons_self _ _
      · rw [lookup_cons_pair, if_neg hk] at h
        exact List.mem_cons_of_mem _ (ih h)

theorem lookup_eq_some_of_mem_nodup {α β : Type} [BEq α] [LawfulBEq α] [DecidableEq α]
    (l : List (α × β))
    (hnd : (l.map Prod.fst).Nodup) (e : α × β) (he : e ∈ l) :
    List.lookup e.1 l = some e.2 := by
  induction l with
  | nil => simp at he
  | cons f rest ih =>
      obtain ⟨k0, b0⟩ := f
      rw [List.map_cons, List.nodup_cons] at hnd
      rcases List.mem_cons.mp he with rfl | hmem
      · rw [lookup_cons_pair]
        simp
      · have hne : e.1 ≠ k0 := by
          intro hh
          have hmm : e.1 ∈ rest.map Prod.fst := List.mem_map_of_mem Prod.fst hmem
          rw [hh] at hmm
          exact hnd.1 hmm
        rw [lookup_cons_pair, if_neg hne]
        exact ih hnd.2 hmem

theorem nodup_mapFst_classify (cs : List Course) :
    ((classifyLevels cs).map Prod.fst).Nodup := by
  rw [classifyLevels]
  exact nodup_mapFst_classify_foldl cs [] (by simp)

theorem mem_mapFst_classify (cs : List Course) (x : LevelKey) :
    x ∈ (classifyLevels cs).map Prod.fst
      ↔ x ∈ cs.map (fun c => courseLevelKey c.course_number) := by
  rw [classifyLevels, mem_mapFst_classify_foldl]
  simp

theorem bucket_eq_filter (cs : List Course) (e : LevelKey × List Course)
    (he : e ∈ classifyLevels cs) :
    e.2 = cs.filter (fun c => decide (courseLevelKey c.course_number = e.1)) := by
  have hl : List.lookup e.1
        (cs.foldl (fun a c => insertCourse a (courseLevelKey c.course_number) c) [])
      = some e.2 :=
    lookup_eq_some_of_mem_nodup _ (nodup_mapFst_classify cs) e he
  have hg := lookup_classify_getD cs [] e.1
  rw [hl] at hg
  simpa using hg

theorem exists_entry_of_mem (cs : List Course) (c : Course) (hc : c ∈ cs) :
    ∃ e, e ∈ classifyLevels cs ∧ e.1 = courseLevelKey c.course_number ∧ c ∈ e.2 := by
  have hmem : courseLevelKey c.course_number ∈ (classifyLevels cs).map Prod.fst :=
    (mem_mapFst_classify cs _).mpr (List.mem_map_of_mem _ hc)
  obtain ⟨b, hb⟩ := Option.isSome_iff_exists.mp
    ((lookup_isSome_iff_mem_mapFst _ _).mpr hmem)
  have hbmem := mem_of_lookup_eq_some _ _ _ hb
  refine ⟨(courseLevelKey c.course_number, b), hbmem, rfl, ?_⟩
  have hfil := bucket_eq_filter cs _ hbmem
  rw [show ((courseLevelKey c.course_number, b) : LevelKey × List Course).2 = b from rfl] at hfil
  rw [hfil]
  simp [List.mem_filter, hc]

theorem entry_unique (cs : List Course) (c : Course) (e f : LevelKey × List Course)
    (he : e ∈ classifyLevels cs) (hf : f ∈ classifyLevels cs)
    (hce : c ∈ e.2) (hcf : c ∈ f.2) : e = f := by
  have hk1 : courseLevelKey c.course_number = e.1 := by
    have h1 := hce
    rw [bucket_eq_filter cs e he, List.mem_filter] at h1
    simpa using h1.2
  have hk2 : courseLevelKey c.course_number = f.1 := by
    have h2 := hcf
    rw [bucket_eq_filter cs f hf, List.mem_filter] at h2
    simpa using h2.2
  have hfst : e.1 = f.1 := hk1 ▸ hk2
  have le := lookup_eq_some_of_mem_nodup _ (nodup_mapFst_classify cs) e he
  have lf := lookup_eq_some_of_mem_nodup _ (nodup_mapFst_classify cs) f hf
  rw [hfst, lf] at le
  have hsnd : e.2 = f.2 := by
    injection le with hh
    exact hh.symm
  exact Prod.ext hfst hsnd

/-- C2: a course whose numeric part parses to `n` lands in the bucket keyed
`floor(n / 100) * 100`; the number of buckets equals the number of distinct
level keys occurring in the course list; and every course lies in exactly
one bucket. -/
theorem c2_level_buckets_partition (courses : List Course) :
    (∀ c ∈ courses, ∀ numStr : List Char, ∀ n : Int,
        (splitOnChar ' ' c.course_number.data).get? 1 = some numStr →
        parseIntJS numStr = some n →
        ∃ e ∈ classifyLevels courses, e.1 = some (Int.fdiv n 100 * 100) ∧ c ∈ e.2)
    ∧ (classifyLevels courses).length
        = (courses.map (fun c => courseLevelKey c.course_number)).toFinset.card
    ∧ (∀ c ∈ courses, ∃! e, e ∈ classifyLevels courses ∧ c ∈ e.2) := by
  refine ⟨?_, ?_, ?_⟩
  · intro c hc numStr n hsplit hparse
    have hkey : courseLevelKey c.course_number = some (Int.fdiv n 100 * 100) := by
      rw [courseLevelKey, hsplit]
      simp [hparse]
    obtain ⟨e, he, hek, hce⟩ := exists_entry_of_mem courses c hc
    exact ⟨e, he, by rw [hek, hkey], hce⟩
  · have hnd := nodup_mapFst_classify courses
    have hlen : (classifyLevels courses).length
        = ((classifyLevels courses).map Prod.fst).length := (List.length_map _ _).symm
    rw [hlen, ← List.toFinset_card_of_nodup hnd]
    congr 1
    ext x
    simp only [List.mem_toFinset]
    exact mem_mapFst_classify courses x
  · intro c hc
    obtain ⟨e, he, hek, hce⟩ := exists_entry_of_mem courses c hc
    exact ⟨e, ⟨he, hce⟩, fun f hf => entry_unique courses c f e hf.1 he hf.2 hce⟩

/-- Witness for C2: the sample program; `A 100` parses to `100` and lands in
the bucket keyed `100`. -/
theorem c2_witness :
    sampleCourse1 ∈ sampleCourses
    ∧ (splitOnChar ' ' sampleCourse1.course_number.data).get? 1 = some ("100".data)
    ∧ parseIntJS ("100".data) = some 100
    ∧ (∃ e ∈ classifyLevels sampleCourses,
        e.1 = some (Int.fdiv 100 100 * 100) ∧ sampleCourse1 ∈ e.2)
    ∧ (classifyLevels sampleCourses).length
        = (sampleCourses.map (fun c => courseLevelKey c.course_number)).toFinset.card
    ∧ (∃! e, e ∈ classifyLevels sampleCourses ∧ sampleCourse1 ∈ e.2) := by
  obtain ⟨h1, h2, h3⟩ := c2_level_buckets_partition sampleCourses
  exact ⟨by decide, by decide, by decide,
    h1 sampleCourse1 (by decide) ("100".data) 100 (by decide) (by decide),
    h2, h3 sampleCourse1 (by decide)⟩

/-- C8: a course whose course-number numeric part does not parse is still
classified, into exactly one bucket, namely the deterministic `NaN` fallback
bucket (key `none`); it is neither dropped nor an error. -/
theorem c8_unparseable_fallback_bucket (courses : List Course) (c : Course)
    (hc : c ∈ courses) (hkey : courseLevelKey c.course_number = none) :
    (∃! e, e ∈ classifyLevels courses ∧ c ∈ e.2)
    ∧ ∀ e ∈ classifyLevels courses, c ∈ e.2 → e.1 = none := by
  constructor
  · obtain ⟨e, he, hek, hce⟩ := exists_entry_of_mem courses c hc
    exact ⟨e, ⟨he, hce⟩, fun f hf => entry_unique courses c f e hf.1 he hf.2 hce⟩
  · intro f hf hcf
    rw [bucket_eq_filter courses f hf, List.mem_filter] at hcf
    have hk : courseLevelKey c.course_number = f.1 := by simpa using hcf.2
    rw [← hk, hkey]

/-- Witness for C8: the course `"A xyz"`, alone in a program. -/
theorem c8_witness :
    badCourse ∈ [badCourse]
    ∧ courseLevelKey badCourse.course_number = none
    ∧ ((∃! e, e ∈ classifyLevels [badCourse] ∧ badCourse ∈ e.2)
       ∧ ∀ e ∈ classifyLevels [badCourse], badCourse ∈ e.2 → e.1 = none) :=
  ⟨by decide, by decide,
    c8_unparseable_fallback_bucket [badCourse] badCourse (by decide) (by decide)⟩

/-! ## Layout engine lemmas -/

theorem lookup_setPos (ps : Positions) (k k' : String) (v : Pos) :
    List.lookup k' (setPos ps k v) = if k' = k then some v else List.lookup k' ps := by
  induction ps with
  | nil =>
      rw [setPos, lookup_cons_pair]
  | cons e rest ih =>
      obtain ⟨k0, v0⟩ := e
      by_cases h0 : k0 = k
      · subst h0
        rw [setPos, if_pos rfl]
        by_cases h : k' = k0
        · rw [lookup_cons_pair, if_pos h, if_pos h]
        · rw [lookup_cons_pair, if_neg h, if_neg h, lookup_cons_pair, if_neg h]
      · rw [setPos, if_neg h0]
        by_cases h : k' = k0
        · have hne : ¬k' = k := fun hh => h0 (h.symm.trans hh)
          rw [lookup_cons_pair, if_pos h, if_neg hne, lookup_cons_pair, if_pos h]
        · rw [lookup_cons_pair, if_neg h, ih]
          by_cases hk : k' = k
          · rw [if_pos hk, if_pos hk]
          · rw [if_neg hk, if_neg hk, lookup_cons_pair, if_neg h]

theorem lookup_placeCourses_not_mem (mw : ℚ) (r : Nat → ℚ) (b : ℚ) (n : Nat) :
    ∀ (cs : List Course) (i : Nat) (st : LayoutState) (key : String),
    key ∉ cs.map Course.course_number →
    List.lookup key (placeCourses mw r b n i cs st).positions
      = List.lookup key st.positions := by
  intro cs
  induction cs with
  | nil =>
      intro i st key _
      rfl
  | cons c rest ih =>
      intro i st key h
      have h1 : ¬key = c.course_number := by
        intro hh
        exact h (by simp [hh])
      have h2 : key ∉ rest.map Course.course_number := by
        intro hh
        exact h (by simp [hh])
      simp only [placeCourses]
      rw [ih _ _ _ h2]
      exact (lookup_setPos st.positions c.course_number key _).trans (if_neg h1)

theorem lookup_placeCourses_get (mw : ℚ) (r : Nat → ℚ) (b : ℚ) (n : Nat) :
    ∀ (cs : List Course), (cs.map Course.course_number).Nodup →
    ∀ (i : Nat) (st : LayoutState) (k : Nat) (hk : k < cs.length),
    List.lookup (cs.get ⟨k, hk⟩).course_number (placeCourses mw r b n i cs st).positions
      = some ⟨xCoord mw (i + k) n, b + (r (st.ctr + k) - 1 / 2) * 30⟩ := by
  intro cs
  induction cs with
  | nil =>
      intro _ i st k hk
      exact absurd hk (by simp)
  | cons c rest ih =>
      intro hnd i st k hk
      rw [List.map_cons, List.nodup_cons] at hnd
      match k with
      | 0 =>
          rw [show (c :: rest).get ⟨0, hk⟩ = c from rfl]
          simp only [placeCourses]
          rw [lookup_placeCourses_not_mem mw r b n rest (i + 1) _ _ hnd.1]
          rw [show (setPos st.positions c.course_number
                ⟨xCoord mw i n, b + (r st.ctr - 1 / 2) * 30⟩ : Positions)
              = ({ positions := setPos st.positions c.course_number
                     ⟨xCoord mw i n, b + (r st.ctr - 1 / 2) * 30⟩
                   maxX := max st.maxX (xCoord mw i n + 60)
                   maxY := st.maxY
                   ctr := st.ctr + 1 : LayoutState}).positions from rfl]
          rw [lookup_setPos, if_pos rfl]
          simp
      | k + 1 =>
          have hlen : k < rest.length := by
            simp only [List.length_cons] at hk
            omega
          rw [show (c :: rest).get ⟨k + 1, hk⟩ = rest.get ⟨k, hlen⟩ from rfl]
          simp only [placeCourses]
          rw [ih hnd.2 (i + 1) _ k hlen]
          have e1 : i + 1 + k = i + (k + 1) := by omega
          have e2 : st.ctr + 1 + k = st.ctr + (k + 1) := by omega
          rw [e1]
          rw [show ({ positions := setPos st.positions c.course_number
                        ⟨xCoord mw i n, b + (r st.ctr - 1 / 2) * 30⟩
                      maxX := max st.maxX (xCoord mw i n + 60)
                      maxY := st.maxY
                      ctr := st.ctr + 1 : LayoutState}).ctr = st.ctr + 1 from rfl]
          rw [e2]

theorem lookup_placeLevels_not_mem (mw : ℚ) (r : Nat → ℚ) :
    ∀ (ls : Levels) (li : Nat) (st : LayoutState) (key : String),
    key ∉ ls.flatMap (fun e => e.2.map Course.course_number) →
    List.lookup key (placeLevels mw r li ls st).positions
      = List.lookup key st.positions := by
  intro ls
  induction ls with
  | nil =>
      intro li st key _
      rfl
  | cons e rest ih =>
      intro li st key h
      obtain ⟨k0, cs0⟩ := e
      rw [List.flatMap_cons] at h
      have h1 : key ∉ cs0.map Course.course_number := by
        intro hh
        exact h (List.mem_append.mpr (Or.inl hh))
      have h2 : key ∉ rest.flatMap (fun e => e.2.map Course.course_number) := by
        intro hh
        exact h (List.mem_append.mpr (Or.inr hh))
      simp only [placeLevels, placeLevel]
      rw [ih _ _ _ h2]
      exact lookup_placeCourses_not_mem mw r _ _ cs0 0 _ key h1

theorem lookup_placeLevels_get (mw : ℚ) (r : Nat → ℚ) :
    ∀ (ls : Levels),
    (ls.flatMap (fun e => e.2.map Course.course_number)).Nodup →
    ∀ (li0 : Nat) (st : LayoutState) (li : Nat) (hli : li < ls.length)
      (k : Nat) (hk : k < (ls.get ⟨li, hli⟩).2.length),
    ∃ m : Nat,
      List.lookup ((ls.get ⟨li, hli⟩).2.get ⟨k, hk⟩).course_number
          (placeLevels mw r li0 ls st).positions
        = some ⟨xCoord mw k (ls.get ⟨li, hli⟩).2.length,
                baseYOf (li0 + li) + (r m - 1 / 2) * 30⟩ := by
  intro ls
  induction ls with
  | nil =>
      intro _ li0 st li hli
      exact absurd hli (by simp)
  | cons e rest ih =>
      intro hnd li0 st li hli k hk
      obtain ⟨k0, cs0⟩ := e
      rw [List.flatMap_cons, List.nodup_append] at hnd
      match li with
      | 0 =>
          have hk0 : k < cs0.length := hk
          rw [show (((k0, cs0) :: rest).get ⟨0, hli⟩).2.get ⟨k, hk⟩
              = cs0.get ⟨k, hk0⟩ from rfl]
          rw [show (((k0, cs0) :: rest).get ⟨0, hli⟩).2.length = cs0.length from rfl]
          have hkm : (cs0.get ⟨k, hk0⟩).course_number ∈ cs0.map Course.course_number :=
            List.mem_map_of_mem _ (List.get_mem cs0 k hk0)
          simp only [placeLevels]
          rw [lookup_placeLevels_not_mem mw r rest (li0 + 1) _ _ (hnd.2.2 hkm)]
          simp only [placeLevel]
          rw [lookup_placeCourses_get mw r (baseYOf li0) cs0.length cs0 hnd.1 0 _ k hk0]
          exact ⟨st.ctr + k, by simp⟩
      | li + 1 =>
          have hlen : li < rest.length := by
            simp only [List.length_cons] at hli
            omega
          have hk1 : k < (rest.get ⟨li, hlen⟩).2.length := hk
          rw [show (((k0, cs0) :: rest).get ⟨li + 1, hli⟩).2.get ⟨k, hk⟩
              = (rest.get ⟨li, hlen⟩).2.get ⟨k, hk1⟩ from rfl]
          rw [show (((k0, cs0) :: rest).get ⟨li + 1, hli⟩).2.length
              = (rest.get ⟨li, hlen⟩).2.length from rfl]
          simp only [placeLevels]
          obtain ⟨m, hm⟩ := ih hnd.2.1 (li0 + 1)
            (placeLevel mw r li0 cs0 st) li hlen k hk1
          refine ⟨m, ?_⟩
          rw [hm]
          have e1 : li0 + 1 + li = li0 + (li + 1) := by omega
          rw [e1]

/-! ## Sorting of level entries -/

theorem mem_insertByKey (e f : LevelKey × List Course) (l : Levels) :
    f ∈ insertByKey e l ↔ f = e ∨ f ∈ l := by
  induction l with
  | nil => simp [insertByKey]
  | cons g rest ih =>
      rw [insertByKey]
      by_cases h : keyVal e.1 ≤ keyVal g.1
      · rw [if_pos h]
        simp
      · rw [if_neg h]
        rw [List.mem_cons, ih, List.mem_cons]
        tauto

theorem pairwise_insertByKey (e : LevelKey × List Course) (l : Levels)
    (hp : l.Pairwise (fun a b => keyVal a.1 ≤ keyVal b.1)) :
    (insertByKey e l).Pairwise (fun a b => keyVal a.1 ≤ keyVal b.1) := by
  induction l with
  | nil => simp [insertByKey]
  | cons g rest ih =>
      rw [List.pairwise_cons] at hp
      rw [insertByKey]
      by_cases h : keyVal e.1 ≤ keyVal g.1
      · rw [if_pos h, List.pairwise_cons]
        constructor
        · intro f hf
          rcases List.mem_cons.mp hf with rfl | hf
          · exact h
          · exact le_trans h (hp.1 f hf)
        · exact List.pairwise_cons.mpr ⟨hp.1, hp.2⟩
      · rw [if_neg h, List.pairwise_cons]
        refine ⟨?_, ih hp.2⟩
        intro f hf
        rcases (mem_insertByKey e f rest).mp hf with rfl | hf
        · exact le_of_not_le h
        · exact hp.1 f hf

theorem pairwise_sortByKey (l : Levels) :
    (sortByKey l).Pairwise (fun a b => keyVal a.1 ≤ keyVal b.1) := by
  induction l with
  | nil => simp [sortByKey]
  | cons e rest ih => exact pairwise_insertByKey e _ ih

theorem entriesOrder_sorted_of_all_index (ls : Levels)
    (h : ∀ e ∈ ls, isArrayIndexKey e = true) :
    (entriesOrder ls).Pairwise (fun a b => keyVal a.1 ≤ keyVal b.1) := by
  rw [entriesOrder]
  have hfil : ls.filter (fun e => !isArrayIndexKey e) = [] := by
    rw [List.filter_eq_nil_iff]
    intro e he
    simp [h e he]
  rw [hfil, List.append_nil]
  exact pairwise_sortByKey _

/-! ## Horizontal centering arithmetic -/

theorem sum_range_cast_rat (n : Nat) :
    (∑ k in Finset.range n, (k : ℚ)) = n * (n - 1) / 2 := by
  induction n with
  | zero => simp
  | succ n ih =>
      rw [Finset.sum_range_succ, ih]
      push_cast
      ring

theorem sum_xCoord (mw : ℚ) (n : Nat) :
    (∑ k in Finset.range n, xCoord mw k n) = n * (mw / 2) := by
  simp only [xCoord]
  rw [Finset.sum_add_distrib, Finset.sum_const, Finset.card_range, nsmul_eq_mul]
  have h1 : (∑ k in Finset.range n, ((k : ℚ) - ((n : ℚ) - 1) / 2) * 120)
      = (∑ k in Finset.range n, ((k : ℚ) - ((n : ℚ) - 1) / 2)) * 120 :=
    (Finset.sum_mul _ _ _).symm
  rw [h1, Finset.sum_sub_distrib, sum_range_cast_rat, Finset.sum_const,
    Finset.card_range, nsmul_eq_mul]
  ring

/-- C3: the course at 0-based index `k` of a level of size `n` is placed at
`x = (k - (n-1)/2) * 120 + mapWidth/2` where `mapWidth = containerWidth * 0.7`;
the `n` x-coordinate formulas of such a level sum to `n * (mapWidth/2)`, so
for `n ≥ 1` their mean is exactly `mapWidth/2`; and a single-course level is
centered exactly at `mapWidth/2`. -/
theorem c3_horizontal_centering (ps : ProgramStructure) (cw : ℚ) (r : Nat → ℚ)
    (hnd : ((entriesOrder ps.levels).flatMap
        (fun e => e.2.map Course.course_number)).Nodup)
    (li k : Nat) (entry : LevelKey × List Course) (course : Course)
    (hentry : (entriesOrder ps.levels).get? li = some entry)
    (hcourse : entry.2.get? k = some course) :
    (∃ p : Pos,
        List.lookup course.course_number (nodePositions (some ps) cw r) = some p
        ∧ p.x = xCoord (cw * (7 / 10)) k entry.2.length)
    ∧ (∀ n : Nat, 1 ≤ n →
        (∑ j in Finset.range n, xCoord (cw * (7 / 10)) j n) / n = cw * (7 / 10) / 2)
    ∧ xCoord (cw * (7 / 10)) 0 1 = cw * (7 / 10) / 2 := by
  refine ⟨?_, ?_, ?_⟩
  · obtain ⟨hli, hget⟩ := List.get?_eq_some.mp hentry
    obtain ⟨hk, hgetc⟩ := List.get?_eq_some.mp (hget ▸ hcourse)
    obtain ⟨m, hm⟩ := lookup_placeLevels_get (cw * (7 / 10)) r (entriesOrder ps.levels)
      hnd 0 ⟨[], 0, 0, 0⟩ li hli k hk
    rw [hgetc] at hm
    refine ⟨_, hm, ?_⟩
    rw [hget]
  · intro n hn
    have hn0 : (n : ℚ) ≠ 0 := Nat.cast_ne_zero.mpr (by omega)
    rw [sum_xCoord, mul_comm, mul_div_assoc, div_self hn0, mul_one]
  · norm_num [xCoord]

/-- Witness for C3: the sample program at container width 1000; `A 100` is
the only course of the first level and sits at `x = 350 = 700 / 2`. -/
theorem c3_witness :
    ((entriesOrder sampleStructure.levels).flatMap
        (fun e => e.2.map Course.course_number)).Nodup
    ∧ (entriesOrder sampleStructure.levels).get? 0 = some (some 100, [sampleCourse1])
    ∧ ([sampleCourse1] : List Course).get? 0 = some sampleCourse1
    ∧ ((∃ p : Pos,
          List.lookup sampleCourse1.course_number
              (nodePositions (some sampleStructure) 1000 halfRand) = some p
          ∧ p.x = xCoord ((1000 : ℚ) * (7 / 10)) 0 ([sampleCourse1] : List Course).length)
       ∧ (∀ n : Nat, 1 ≤ n →
          (∑ j in Finset.range n, xCoord ((1000 : ℚ) * (7 / 10)) j n) / n
            = (1000 : ℚ) * (7 / 10) / 2)
       ∧ xCoord ((1000 : ℚ) * (7 / 10)) 0 1 = (1000 : ℚ) * (7 / 10) / 2) :=
  ⟨by decide, by decide, by decide,
    c3_horizontal_centering sampleStructure 1000 halfRand (by decide) 0 0
      (some 100, [sampleCourse1]) sampleCourse1 (by decide) (by decide)⟩

/-- C4: the level at 0-based entry index `i` gets `baseY = i * 150 + 100`,
which is strictly increasing in the index; the iteration order of the level
entries is ascending by numeric key whenever all keys are array-index keys;
and every node's final `y` lies within `baseY - 15` and `baseY + 15` as long
as the random draws lie in `[0, 1)`. -/
theorem c4_vertical_placement (ps : ProgramStructure) (cw : ℚ) (r : Nat → ℚ)
    (hr : ∀ m : Nat, 0 ≤ r m ∧ r m < 1)
    (hnd : ((entriesOrder ps.levels).flatMap
        (fun e => e.2.map Course.course_number)).Nodup)
    (hidx : ∀ e ∈ ps.levels, isArrayIndexKey e = true)
    (li k : Nat) (entry : LevelKey × List Course) (course : Course)
    (hentry : (entriesOrder ps.levels).get? li = some entry)
    (hcourse : entry.2.get? k = some course) :
    baseYOf li = (li : ℚ) * 150 + 100
    ∧ (∀ i j : Nat, i < j → baseYOf i < baseYOf j)
    ∧ (entriesOrder ps.levels).Pairwise (fun a b => keyVal a.1 ≤ keyVal b.1)
    ∧ ∃ p : Pos,
        List.lookup course.course_number (nodePositions (some ps) cw r) = some p
        ∧ baseYOf li - 15 ≤ p.y ∧ p.y ≤ baseYOf li + 15 := by
  refine ⟨rfl, ?_, entriesOrder_sorted_of_all_index ps.levels hidx, ?_⟩
  · intro i j hij
    have hij' : (i : ℚ) < (j : ℚ) := by exact_mod_cast hij
    simp only [baseYOf]
    linarith
  · obtain ⟨hli, hget⟩ := List.get?_eq_some.mp hentry
    obtain ⟨hk, hgetc⟩ := List.get?_eq_some.mp (hget ▸ hcourse)
    obtain ⟨m, hm⟩ := lookup_placeLevels_get (cw * (7 / 10)) r (entriesOrder ps.levels)
      hnd 0 ⟨[], 0, 0, 0⟩ li hli k hk
    rw [hgetc] at hm
    refine ⟨_, hm, ?_, ?_⟩
    · have h0 := (hr m).1
      simp only [Nat.zero_add]
      linarith
    · have h1 := (hr m).2
      simp only [Nat.zero_add]
      linarith

/-- Witness for C4: the sample program at container width 1000 with the
constant `1/2` random stream; `A 100` sits at `y = 100 = baseY` of level
index 0. -/
theorem c4_witness :
    (∀ m : Nat, 0 ≤ halfRand m ∧ halfRand m < 1)
    ∧ ((entriesOrder sampleStructure.levels).flatMap
        (fun e => e.2.map Course.course_number)).Nodup
    ∧ (∀ e ∈ sampleStructure.levels, isArrayIndexKey e = true)
    ∧ (entriesOrder sampleStructure.levels).get? 0 = some (some 100, [sampleCourse1])
    ∧ ([sampleCourse1] : List Course).get? 0 = some sampleCourse1
    ∧ (baseYOf 0 = ((0 : Nat) : ℚ) * 150 + 100
       ∧ (∀ i j : Nat, i < j → baseYOf i < baseYOf j)
       ∧ (entriesOrder sampleStructure.levels).Pairwise
           (fun a b => keyVal a.1 ≤ keyVal b.1)
       ∧ ∃ p : Pos,
           List.lookup sampleCourse1.course_number
               (nodePositions (some sampleStructure) 1000 halfRand) = some p
           ∧ baseYOf 0 - 15 ≤ p.y ∧ p.y ≤ baseYOf 0 + 15) :=
  ⟨fun m => by norm_num [halfRand], by decide, by decide, by decide, by decide,
    c4_vertical_placement sampleStructure 1000 halfRand
      (fun m => by norm_num [halfRand]) (by decide) (by decide) 0 0
      (some 100, [sampleCourse1]) sampleCourse1 (by decide) (by decide)⟩

end CourseMap
